import Mathlib

/-!
# Pintos system-call boundary (`src/userprog/syscall.c`)

A shallow embedding of the trap handler `syscall_handler`, the address
validator `check_address`, the argument marshaler `get_argument` and the
thirteen `sys_*` services, followed by theorems about them.

Modelling conventions
* Pointers and `unsigned` values are natural numbers below `2 ^ 32`; pointer
  arithmetic wraps modulo `2 ^ 32`.  `int` values are integers, with the
  conversions `toInt32` / `toU32` at every cast the C code performs.
* User memory is a total byte map `Nat → Nat`; a 32-bit load is little endian.
  Page faults are outside the model (every address is backed).
* Every call that leaves `syscall.c` (lock, filesystem, process, console)
  appends an `Event` to the chronological trace of the state; the answers of
  the collaborators are arbitrary functions of the whole state (`Env`).
* `thread_exit` and `shutdown_power_off` do not return: they end the run with
  the outcomes `exited` and `halted`.
-/

namespace Pintos

/-! ## Machine integers -/

/-- The cast `(uint32_t) x`. -/
def u32 (n : Nat) : Nat := n % 2 ^ 32

/-- Conversion of a 32-bit word to `int` (two's complement). -/
def toInt32 (w : Nat) : Int :=
  if w % 2 ^ 32 < 2 ^ 31 then ((w % 2 ^ 32 : Nat) : Int)
  else ((w % 2 ^ 32 : Nat) : Int) - 2 ^ 32

/-- Conversion of an `int` to a 32-bit word (`unsigned`, pointer, `f->eax`). -/
def toU32 (i : Int) : Nat := (i % 2 ^ 32).toNat

/-- Conversion of a C `bool` to a 32-bit word. -/
def boolU32 (b : Bool) : Nat := if b then 1 else 0

/-! ## Observable events -/

/-- Calls that leave `syscall.c`, and the user-memory accesses made by it. -/
inductive Event where
  | read_word (addr : Nat)
  | write_byte (addr : Nat) (b : Nat)
  | lock_acquire
  | lock_release
  | filesys_create (name : Nat) (size : Int)
  | filesys_remove (name : Nat)
  | filesys_open (name : Nat)
  | file_length (h : Nat)
  | file_read (h : Nat) (buf : Nat) (size : Nat)
  | file_write (h : Nat) (buf : Nat) (size : Nat)
  | file_seek (h : Nat) (pos : Int)
  | file_tell (h : Nat)
  | file_close (h : Nat)
  | process_execute (cmd : Nat)
  | sema_down_load (child : Nat)
  | process_wait (tid : Int)
  | input_getc
  | putbuf (bytes : List Nat)
  | printf_exit (status : Int)
  | thread_exit
  | shutdown_power_off
  deriving DecidableEq, Repr

/-- Calls into the filesystem collaborator. -/
def Event.isFilesys : Event → Bool
  | .filesys_create _ _ => true
  | .filesys_remove _ => true
  | .filesys_open _ => true
  | .file_length _ => true
  | .file_read _ _ _ => true
  | .file_write _ _ _ => true
  | .file_seek _ _ => true
  | .file_tell _ => true
  | .file_close _ => true
  | _ => false

/-- Operations on the filesystem serialization lock `l`. -/
def Event.isLock : Event → Bool
  | .lock_acquire => true
  | .lock_release => true
  | _ => false

/-- Calls into the console device collaborator made on behalf of a service. -/
def Event.isConsole : Event → Bool
  | .input_getc => true
  | .putbuf _ => true
  | _ => false

/-- Calls into the process-spawn collaborator. -/
def Event.isSpawn : Event → Bool
  | .process_execute _ => true
  | .sema_down_load _ => true
  | .process_wait _ => true
  | _ => false

/-- Loads from user memory. -/
def Event.isRead : Event → Bool
  | .read_word _ => true
  | _ => false

/-! ## State -/

/-- Kernel-visible state of one system call: user memory, the two fields of
`struct intr_frame` the handler uses, the lock `l`, `cur->exit_status`, the
file-descriptor table of the current process, the console input cursor and the
trace. -/
structure State where
  mem : Nat → Nat
  esp : Nat
  eax : Nat
  lock_held : Bool
  exit_status : Option Int
  fd_table : List (Int × Nat)
  next_fd : Int
  input_pos : Nat
  trace : List Event

/-- Answers of the collaborators that are outside `syscall.c`.  Each answer may
depend on the whole current state (memory and history included). -/
structure Env where
  filesys_create : State → Nat → Int → Bool
  filesys_remove : State → Nat → Bool
  filesys_open : State → Nat → Option Nat
  file_length : State → Nat → Int
  file_read : State → Nat → Nat → Nat → Int × List Nat
  file_write : State → Nat → Nat → Nat → Int
  file_tell : State → Nat → Int
  process_execute : State → Nat → Int
  get_child_process : State → Int → Option Nat
  is_loaded : State → Nat → Int
  process_wait : State → Int → Int
  input : Nat → Nat

/-- Result of running a piece of kernel code: it returns a value, or the
current thread exits (`thread_exit`), or the machine powers off. -/
inductive Outcome (α : Type) where
  | ret (v : α) (s : State)
  | exited (s : State)
  | halted (s : State)

/-- Final state of an outcome. -/
def Outcome.state {α : Type} : Outcome α → State
  | .ret _ s => s
  | .exited s => s
  | .halted s => s

/-- Whether control came back to the caller. -/
def Outcome.returned {α : Type} : Outcome α → Bool
  | .ret _ _ => true
  | _ => false

/-- Kernel computations. -/
def M (α : Type) : Type := State → Outcome α

/-- Sequencing: a non-returning outcome cuts the rest of the code. -/
def M.bind {α β : Type} (m : M α) (f : α → M β) : M β := fun s =>
  match m s with
  | .ret v s1 => f v s1
  | .exited s1 => .exited s1
  | .halted s1 => .halted s1

/-- Returning a value without effect. -/
def M.pure {α : Type} (v : α) : M α := fun s => .ret v s

instance : Monad M where
  pure := M.pure
  bind := M.bind

/-- Append one event to the trace. -/
def emit (e : Event) : M Unit := fun s =>
  .ret () { s with trace := s.trace ++ [e] }

/-! ## User memory -/

/-- The byte stored at an address. -/
def read_byte (mem : Nat → Nat) (a : Nat) : Nat := mem (a % 2 ^ 32) % 256

/-- The little-endian 32-bit word stored at an address. -/
def read_word (mem : Nat → Nat) (a : Nat) : Nat :=
  read_byte mem a + 256 * read_byte mem (a + 1)
    + 65536 * read_byte mem (a + 2) + 16777216 * read_byte mem (a + 3)

/-- Memory after a one-byte store. -/
def write_byte (mem : Nat → Nat) (a : Nat) (b : Nat) : Nat → Nat :=
  fun x => if x = a % 2 ^ 32 then b % 256 else mem x

/-- Memory after storing a list of bytes at consecutive addresses. -/
def write_bytes (mem : Nat → Nat) (a : Nat) : List Nat → Nat → Nat
  | [] => mem
  | b :: bs => write_bytes (write_byte mem a b) (a + 1) bs

/-- The `n` bytes `buffer[0..n)`. -/
def read_bytes (mem : Nat → Nat) (a : Nat) (n : Nat) : List Nat :=
  (List.range n).map (fun i => read_byte mem (a + i))

/-- The load `* (uint32_t *) p`. -/
def deref_word (p : Nat) : M Nat := fun s =>
  .ret (read_word s.mem p) { s with trace := s.trace ++ [.read_word p] }

/-- The store `* (uint8_t *) p = b`. -/
def store_byte (p : Nat) (b : Nat) : M Unit := fun s =>
  .ret () { s with mem := write_byte s.mem p b,
                   trace := s.trace ++ [.write_byte p b] }

/-! ## Collaborators -/

/-- Body of `lock_acquire (&l)`. -/
def lock_acquire : M Unit := fun s =>
  .ret () { s with lock_held := true, trace := s.trace ++ [.lock_acquire] }

/-- Body of `lock_release (&l)`. -/
def lock_release : M Unit := fun s =>
  .ret () { s with lock_held := false, trace := s.trace ++ [.lock_release] }

/-- Call of `filesys_create`. -/
def filesys_create (env : Env) (name : Nat) (size : Int) : M Bool := fun s =>
  .ret (env.filesys_create s name size)
    { s with trace := s.trace ++ [.filesys_create name size] }

/-- Call of `filesys_remove`. -/
def filesys_remove (env : Env) (name : Nat) : M Bool := fun s =>
  .ret (env.filesys_remove s name)
    { s with trace := s.trace ++ [.filesys_remove name] }

/-- Call of `filesys_open`; `none` is the `NULL` handle. -/
def filesys_open (env : Env) (name : Nat) : M (Option Nat) := fun s =>
  .ret (env.filesys_open s name)
    { s with trace := s.trace ++ [.filesys_open name] }

/-- Call of `file_length`. -/
def file_length (env : Env) (h : Nat) : M Int := fun s =>
  .ret (env.file_length s h) { s with trace := s.trace ++ [.file_length h] }

/-- Call of `file_read`: the collaborator stores the bytes it read in the
buffer and returns their count. -/
def file_read (env : Env) (h : Nat) (buf : Nat) (size : Nat) : M Int := fun s =>
  .ret (env.file_read s h buf size).1
    { s with mem := write_bytes s.mem buf (env.file_read s h buf size).2,
             trace := s.trace ++ [.file_read h buf size] }

/-- Call of `file_write`. -/
def file_write (env : Env) (h : Nat) (buf : Nat) (size : Nat) : M Int := fun s =>
  .ret (env.file_write s h buf size)
    { s with trace := s.trace ++ [.file_write h buf size] }

/-- Call of `file_seek`. -/
def file_seek (h : Nat) (pos : Int) : M Unit := emit (.file_seek h pos)

/-- Call of `file_tell`. -/
def file_tell (env : Env) (h : Nat) : M Int := fun s =>
  .ret (env.file_tell s h) { s with trace := s.trace ++ [.file_tell h] }

/-- Call of `process_execute`. -/
def process_execute (env : Env) (cmd : Nat) : M Int := fun s =>
  .ret (env.process_execute s cmd)
    { s with trace := s.trace ++ [.process_execute cmd] }

/-- Call of `get_child_process`; `none` is `NULL`. -/
def get_child_process (env : Env) (tid : Int) : M (Option Nat) := fun s =>
  .ret (env.get_child_process s tid) s

/-- The blocking call `sema_down (&p->load_sema)`. -/
def sema_down_load (p : Nat) : M Unit := emit (.sema_down_load p)

/-- The field read `p->is_loaded`. -/
def is_loaded (env : Env) (p : Nat) : M Int := fun s =>
  .ret (env.is_loaded s p) s

/-- Call of `process_wait`. -/
def process_wait (env : Env) (tid : Int) : M Int := fun s =>
  .ret (env.process_wait s tid) { s with trace := s.trace ++ [.process_wait tid] }

/-- Call of `input_getc`: the next byte of the console input. -/
def input_getc (env : Env) : M Nat := fun s =>
  .ret (env.input s.input_pos % 256)
    { s with input_pos := s.input_pos + 1, trace := s.trace ++ [.input_getc] }

/-- Call of `putbuf (buffer, size)`. -/
def putbuf (buffer : Nat) (size : Nat) : M Unit := fun s =>
  .ret () { s with trace := s.trace ++ [.putbuf (read_bytes s.mem buffer size)] }

/-- Modelled from the spec: the lookup of a descriptor in the table of the
current process, which `userprog/process.c` (missing) implements; per section
4.4 the reserved console descriptors 0 and 1 and unknown descriptors are
not found. -/
def fd_lookup (table : List (Int × Nat)) (fd : Int) : Option Nat :=
  if fd = 0 ∨ fd = 1 then none else table.lookup fd

/-- Modelled from the spec: `process_get_file` of `userprog/process.c` is
missing; per section 4.4 (`get`) it returns the owned handle, or not-found when
the descriptor is unknown to the process or is a reserved console descriptor. -/
def process_get_file (fd : Int) : M (Option Nat) := fun s =>
  .ret (fd_lookup s.fd_table fd) s

/-- Modelled from the spec: `process_add_file` of `userprog/process.c` is
missing; per section 4.4 (`add`) it allocates the next unused descriptor,
stores the handle and returns the descriptor. -/
def process_add_file (h : Nat) : M Int := fun s =>
  .ret s.next_fd { s with fd_table := (s.next_fd, h) :: s.fd_table,
                          next_fd := s.next_fd + 1 }

/-- Modelled from the spec: `process_close_file` of `userprog/process.c` is
missing; per section 4.4 (`close`) it releases the handle through the
filesystem collaborator and removes the mapping, and is a no-op on an unknown
descriptor. -/
def process_close_file (fd : Int) : M Unit := fun s =>
  match fd_lookup s.fd_table fd with
  | none => .ret () s
  | some h =>
    .ret () { s with fd_table := s.fd_table.filter (fun p => p.1 != fd),
                     trace := s.trace ++ [.file_close h] }

/-! ## `syscall.c` -/

/-- Source `sys_halt`: `shutdown_power_off ()`, which does not return. -/
def sys_halt : M Unit := fun s =>
  .halted { s with trace := s.trace ++ [.shutdown_power_off] }

/-- Source `sys_exit`: print the termination line, store the status in the
process descriptor, `thread_exit ()` (no return). -/
def sys_exit {α : Type} (status : Int) : M α := fun s =>
  .exited { s with exit_status := some status,
                   trace := s.trace ++ [.printf_exit status, .thread_exit] }

/-- Source `check_address`. -/
def check_address (addr : Nat) : M Unit := fun s =>
  if u32 addr ≤ 0x8048000 ∨ u32 addr ≥ 0xc0000000 then sys_exit (-1) s
  else .ret () s

/-- The loop of source `get_argument`, with `n` iterations left and loop
index `i`. -/
def get_argument_loop (esp : Nat) (arg : List Int) (i : Nat) : Nat → M (List Int)
  | 0 => pure arg
  | n + 1 => do
    check_address esp
    let w ← deref_word esp
    get_argument_loop ((esp + 4) % 2 ^ 32) (arg.set i (toInt32 w)) (i + 1) n

/-- Source `get_argument`: returns the array `arg` after the loop. -/
def get_argument (esp : Nat) (arg : List Int) (count : Nat) : M (List Int) :=
  get_argument_loop esp arg 0 count

/-- Source `sys_create`. -/
def sys_create (env : Env) (file : Nat) (initial_size : Nat) : M Bool := do
  check_address file
  lock_acquire
  let success ← filesys_create env file (toInt32 initial_size)
  lock_release
  pure success

/-- Source `sys_remove`. -/
def sys_remove (env : Env) (file : Nat) : M Bool := do
  check_address file
  lock_acquire
  let success ← filesys_remove env file
  lock_release
  pure success

/-- Source `sys_exec`. -/
def sys_exec (env : Env) (cmd_line : Nat) : M Int := do
  check_address cmd_line
  let tid ← process_execute env cmd_line
  let p ← get_child_process env tid
  match p with
  | none => pure (-1)
  | some p => do
    sema_down_load p
    let loaded ← is_loaded env p
    if loaded = 0 then pure (-1) else pure tid

/-- Source `sys_wait`. -/
def sys_wait (env : Env) (tid : Int) : M Int :=
  process_wait env tid

/-- Source `sys_open`. -/
def sys_open (env : Env) (file : Nat) : M Int := do
  check_address file
  lock_acquire
  let f ← filesys_open env file
  match f with
  | none => do
    lock_release
    pure (-1)
  | some f => do
    let fd ← process_add_file f
    lock_release
    pure fd

/-- Source `sys_filesize`. -/
def sys_filesize (env : Env) (fd : Int) : M Int := do
  let f ← process_get_file fd
  match f with
  | none => pure (-1)
  | some f => do
    lock_acquire
    let size ← file_length env f
    lock_release
    pure size

/-- The console loop of source `sys_read`: each of the `n` iterations stores
the next input byte through the unchanged pointer `buffer`. -/
def sys_read_loop (env : Env) (buffer : Nat) : Nat → M Unit
  | 0 => pure ()
  | n + 1 => do
    let c ← input_getc env
    store_byte buffer c
    sys_read_loop env buffer n

/-- Source `sys_read`. -/
def sys_read (env : Env) (fd : Int) (buffer : Nat) (size : Nat) : M Int := do
  check_address buffer
  let f ← process_get_file fd
  if fd = 0 then do
    sys_read_loop env buffer size
    pure (toInt32 size)
  else
    match f with
    | none => pure (-1)
    | some f => do
      lock_acquire
      let bytes ← file_read env f buffer size
      lock_release
      pure bytes

/-- Source `sys_write`. -/
def sys_write (env : Env) (fd : Int) (buffer : Nat) (size : Nat) : M Int := do
  check_address buffer
  let f ← process_get_file fd
  if fd = 1 then do
    putbuf buffer size
    pure (toInt32 size)
  else
    match f with
    | none => pure (-1)
    | some f => do
      lock_acquire
      let bytes ← file_write env f buffer size
      lock_release
      pure bytes

/-- Source `sys_seek`. -/
def sys_seek (fd : Int) (position : Nat) : M Unit := do
  let f ← process_get_file fd
  match f with
  | none => pure ()
  | some f => do
    lock_acquire
    file_seek f (toInt32 position)
    lock_release

/-- Source `sys_tell`; the result type is `unsigned`. -/
def sys_tell (env : Env) (fd : Int) : M Nat := do
  let f ← process_get_file fd
  match f with
  | none => pure (toU32 (-1))
  | some f => do
    lock_acquire
    let pos ← file_tell env f
    lock_release
    pure (toU32 pos)

/-- Source `sys_close`. -/
def sys_close (fd : Int) : M Unit := do
  lock_acquire
  process_close_file fd
  lock_release

/-- The assignment `f->eax = v`. -/
def set_eax (v : Nat) : M Unit := fun s => .ret () { s with eax := u32 v }

/-- The read `f->esp`. -/
def get_esp : M Nat := fun s => .ret s.esp s

/-- The array `int arg[4]` before `get_argument` fills it. -/
def arg_init : List Int := [0, 0, 0, 0]

/-- The `switch (sys_no)` statement of source `syscall_handler`, with `esp`
already advanced past the syscall number.  The `SYS_*` constants of
`lib/syscall-nr.h` are the numbers 0 to 12 written beside each `case`. -/
def syscall_switch (env : Env) (esp : Nat) (sys_no : Int) : M Unit :=
  if sys_no = 0 then
    sys_halt
  else if sys_no = 1 then do
    let arg ← get_argument esp arg_init 1
    sys_exit (arg.getD 0 0)
  else if sys_no = 2 then do
    let arg ← get_argument esp arg_init 1
    check_address (toU32 (arg.getD 0 0))
    let r ← sys_exec env (toU32 (arg.getD 0 0))
    set_eax (toU32 r)
  else if sys_no = 3 then do
    let arg ← get_argument esp arg_init 1
    let r ← sys_wait env (arg.getD 0 0)
    set_eax (toU32 r)
  else if sys_no = 4 then do
    let arg ← get_argument esp arg_init 2
    check_address (toU32 (arg.getD 0 0))
    let r ← sys_create env (toU32 (arg.getD 0 0)) (toU32 (arg.getD 1 0))
    set_eax (boolU32 r)
  else if sys_no = 5 then do
    let arg ← get_argument esp arg_init 1
    check_address (toU32 (arg.getD 0 0))
    let r ← sys_remove env (toU32 (arg.getD 0 0))
    set_eax (boolU32 r)
  else if sys_no = 6 then do
    let arg ← get_argument esp arg_init 1
    check_address (toU32 (arg.getD 0 0))
    let r ← sys_open env (toU32 (arg.getD 0 0))
    set_eax (toU32 r)
  else if sys_no = 7 then do
    let arg ← get_argument esp arg_init 1
    let r ← sys_filesize env (arg.getD 0 0)
    set_eax (toU32 r)
  else if sys_no = 8 then do
    let arg ← get_argument esp arg_init 3
    check_address (toU32 (arg.getD 1 0))
    let r ← sys_read env (arg.getD 0 0) (toU32 (arg.getD 1 0)) (toU32 (arg.getD 2 0))
    set_eax (toU32 r)
  else if sys_no = 9 then do
    let arg ← get_argument esp arg_init 3
    let r ← sys_write env (arg.getD 0 0) (toU32 (arg.getD 1 0)) (toU32 (arg.getD 2 0))
    set_eax (toU32 r)
  else if sys_no = 10 then do
    let arg ← get_argument esp arg_init 2
    sys_seek (arg.getD 0 0) (toU32 (arg.getD 1 0))
  else if sys_no = 11 then do
    let arg ← get_argument esp arg_init 1
    let r ← sys_tell env (arg.getD 0 0)
    set_eax r
  else if sys_no = 12 then do
    let arg ← get_argument esp arg_init 1
    sys_close (arg.getD 0 0)
  else
    pure ()

/-- Source `syscall_handler`. -/
def syscall_handler (env : Env) : M Unit := do
  let esp ← get_esp
  check_address esp
  let w ← deref_word esp
  syscall_switch env ((esp + 4) % 2 ^ 32) (toInt32 w)

/-! ## The dispatch table of the specification -/

/-- The thirteen system calls. -/
inductive Syscall where
  | halt | exit | exec | wait | create | remove | open
  | filesize | read | write | seek | tell | close
  deriving DecidableEq, Repr

/-- Specification (section 4.3): the static table from syscall number to
system call and argument count. -/
def syscall_table_spec : Nat → Option (Syscall × Nat)
  | 0 => some (.halt, 0)
  | 1 => some (.exit, 1)
  | 2 => some (.exec, 1)
  | 3 => some (.wait, 1)
  | 4 => some (.create, 2)
  | 5 => some (.remove, 1)
  | 6 => some (.open, 1)
  | 7 => some (.filesize, 1)
  | 8 => some (.read, 3)
  | 9 => some (.write, 3)
  | 10 => some (.seek, 2)
  | 11 => some (.tell, 1)
  | 12 => some (.close, 1)
  | _ => none

/-- Specification (section 4.3): invoke the handler of a system call on the
marshaled words in left-to-right order, validating an argument that is a
pointer first, and write the result to `eax` when the call returns a value. -/
def invoke_spec (env : Env) : Syscall → List Int → M Unit
  | .halt, _ => sys_halt
  | .exit, a => sys_exit (a.getD 0 0)
  | .exec, a => do
    check_address (toU32 (a.getD 0 0))
    let r ← sys_exec env (toU32 (a.getD 0 0))
    set_eax (toU32 r)
  | .wait, a => do
    let r ← sys_wait env (a.getD 0 0)
    set_eax (toU32 r)
  | .create, a => do
    check_address (toU32 (a.getD 0 0))
    let r ← sys_create env (toU32 (a.getD 0 0)) (toU32 (a.getD 1 0))
    set_eax (boolU32 r)
  | .remove, a => do
    check_address (toU32 (a.getD 0 0))
    let r ← sys_remove env (toU32 (a.getD 0 0))
    set_eax (boolU32 r)
  | .open, a => do
    check_address (toU32 (a.getD 0 0))
    let r ← sys_open env (toU32 (a.getD 0 0))
    set_eax (toU32 r)
  | .filesize, a => do
    let r ← sys_filesize env (a.getD 0 0)
    set_eax (toU32 r)
  | .read, a => do
    check_address (toU32 (a.getD 1 0))
    let r ← sys_read env (a.getD 0 0) (toU32 (a.getD 1 0)) (toU32 (a.getD 2 0))
    set_eax (toU32 r)
  | .write, a => do
    check_address (toU32 (a.getD 1 0))
    let r ← sys_write env (a.getD 0 0) (toU32 (a.getD 1 0)) (toU32 (a.getD 2 0))
    set_eax (toU32 r)
  | .seek, a => sys_seek (a.getD 0 0) (toU32 (a.getD 1 0))
  | .tell, a => do
    let r ← sys_tell env (a.getD 0 0)
    set_eax r
  | .close, a => sys_close (a.getD 0 0)

/-- Specification (section 4.3): what the dispatcher does once the syscall
number `w` is known: marshal the number of words the table gives, then invoke
the handler the table gives; nothing for a number outside the table. -/
def dispatch_spec (env : Env) (esp : Nat) (w : Nat) : M Unit :=
  match syscall_table_spec w with
  | none => pure ()
  | some (sc, n) => do
    let arg ← get_argument esp arg_init n
    invoke_spec env sc arg

/-- Specification (section 4.3): table-driven dispatch. -/
def syscall_dispatch_spec (env : Env) : M Unit := do
  let esp ← get_esp
  check_address esp
  let w ← deref_word esp
  dispatch_spec env ((esp + 4) % 2 ^ 32) w

/-- Specification (section 4.3, "exec(1,ptr) ... read(3,int+ptr+uint)"): the
index of the argument that is a pointer to a string or buffer, if any. -/
def pointer_arg_spec : Syscall → Option Nat
  | .exec => some 0
  | .create => some 0
  | .remove => some 0
  | .open => some 0
  | .read => some 1
  | .write => some 1
  | _ => none

/-- Specification (section 4.3): the system calls defined to return a value. -/
def returns_value_spec : Syscall → Bool
  | .exec => true
  | .wait => true
  | .create => true
  | .remove => true
  | .open => true
  | .filesize => true
  | .read => true
  | .write => true
  | .tell => true
  | _ => false

/-- The service call made in each `case` of the switch, together with the word
the case assigns to `f->eax` (`none` where the case assigns nothing). -/
def service_call (env : Env) : Syscall → List Int → M (Option Nat)
  | .halt, _ => do
    sys_halt
    pure none
  | .exit, a => sys_exit (a.getD 0 0)
  | .exec, a => do
    let r ← sys_exec env (toU32 (a.getD 0 0))
    pure (some (toU32 r))
  | .wait, a => do
    let r ← sys_wait env (a.getD 0 0)
    pure (some (toU32 r))
  | .create, a => do
    let r ← sys_create env (toU32 (a.getD 0 0)) (toU32 (a.getD 1 0))
    pure (some (boolU32 r))
  | .remove, a => do
    let r ← sys_remove env (toU32 (a.getD 0 0))
    pure (some (boolU32 r))
  | .open, a => do
    let r ← sys_open env (toU32 (a.getD 0 0))
    pure (some (toU32 r))
  | .filesize, a => do
    let r ← sys_filesize env (a.getD 0 0)
    pure (some (toU32 r))
  | .read, a => do
    let r ← sys_read env (a.getD 0 0) (toU32 (a.getD 1 0)) (toU32 (a.getD 2 0))
    pure (some (toU32 r))
  | .write, a => do
    let r ← sys_write env (a.getD 0 0) (toU32 (a.getD 1 0)) (toU32 (a.getD 2 0))
    pure (some (toU32 r))
  | .seek, a => do
    sys_seek (a.getD 0 0) (toU32 (a.getD 1 0))
    pure none
  | .tell, a => do
    let r ← sys_tell env (a.getD 0 0)
    pure (some r)
  | .close, a => do
    sys_close (a.getD 0 0)
    pure none

/-! ## Traces and lock discipline -/

/-- Replay a run of events against the lock, starting with the lock held or
free: `none` when the lock is acquired while held, released while free, or a
filesystem call is made while the lock is free; otherwise the final state of
the lock. -/
def lock_ok : Bool → List Event → Option Bool
  | held, [] => some held
  | held, Event.lock_acquire :: es => if held then none else lock_ok true es
  | held, Event.lock_release :: es => if held then lock_ok false es else none
  | held, e :: es => if e.isFilesys && !held then none else lock_ok held es

/-- The loads of `n` consecutive words starting at `esp`. -/
def word_reads (esp : Nat) (n : Nat) : List Event :=
  (List.range n).map (fun i => Event.read_word (esp + 4 * i))

/-- The events a run added to the trace of its initial state. -/
def new_events {α : Type} (s : State) (o : Outcome α) : List Event :=
  o.state.trace.drop s.trace.length

/-- A run started with the lock free respects the lock discipline and ends
with the lock free. -/
def lock_discipline {α : Type} (s : State) (o : Outcome α) : Prop :=
  lock_ok false (new_events s o) = some false ∧ o.state.lock_held = false

instance {α : Type} (s : State) (o : Outcome α) : Decidable (lock_discipline s o) := by
  unfold lock_discipline
  infer_instance

/-- The events of `n` iterations of the console loop of `sys_read`, the input
cursor being at `pos`. -/
def console_events (env : Env) (buffer : Nat) (pos : Nat) : Nat → List Event
  | 0 => []
  | n + 1 =>
    Event.input_getc :: Event.write_byte buffer (env.input pos % 256)
      :: console_events env buffer (pos + 1) n

/-- The memory after `n` iterations of the console loop of `sys_read`. -/
def console_mem (env : Env) (buffer : Nat) (mem : Nat → Nat) (pos : Nat) :
    Nat → Nat → Nat
  | 0 => mem
  | n + 1 =>
    console_mem env buffer (write_byte mem buffer (env.input pos % 256)) (pos + 1) n

/-! ## Concrete inputs -/

/-- A memory given by a finite list of (address, byte) pairs, zero elsewhere. -/
def mem_of (l : List (Nat × Nat)) : Nat → Nat := fun a => (l.lookup a).getD 0

/-- The four bytes of the word `w` stored at address `a`. -/
def word_at (a w : Nat) : List (Nat × Nat) :=
  [(a, w % 256), (a + 1, w / 256 % 256), (a + 2, w / 65536 % 256),
   (a + 3, w / 16777216 % 256)]

/-- A state at the entry of a system call: the given stack pointer and memory,
the lock free, no open file, no event so far. -/
def entry_state (esp : Nat) (l : List (Nat × Nat)) : State :=
  { mem := mem_of l, esp := esp, eax := 0, lock_held := false, exit_status := none,
    fd_table := [], next_fd := 2, input_pos := 0, trace := [] }

/-- Collaborators with fixed answers; the console input is `A`, `B`, `C`, ... -/
def sample_env : Env :=
  { filesys_create := fun _ _ _ => true
    filesys_remove := fun _ _ => true
    filesys_open := fun _ _ => some 7
    file_length := fun _ _ => 10
    file_read := fun _ _ _ _ => (0, [])
    file_write := fun _ _ _ _ => 0
    file_tell := fun _ _ => 0
    process_execute := fun _ _ => 3
    get_child_process := fun _ _ => some 3
    is_loaded := fun _ _ => 1
    process_wait := fun _ _ => 0
    input := fun i => 0x41 + i }

/-- A `write` of 5 bytes on descriptor 1 whose buffer pointer is `NULL`. -/
def write_null_state : State :=
  entry_state 0xBFFFFF00
    (word_at 0xBFFFFF00 9 ++ word_at 0xBFFFFF04 1 ++ word_at 0xBFFFFF08 0
      ++ word_at 0xBFFFFF0C 5)

/-- A `filesize` call on descriptor 5, with no file open. -/
def filesize_state : State :=
  entry_state 0xBFFFFF00 (word_at 0xBFFFFF00 7 ++ word_at 0xBFFFFF04 5)

/-- A `read` of 2 bytes from descriptor 0 into the buffer at `0x08048100`. -/
def console_read_state : State :=
  entry_state 0xBFFFFF00
    (word_at 0xBFFFFF00 8 ++ word_at 0xBFFFFF04 0 ++ word_at 0xBFFFFF08 0x08048100
      ++ word_at 0xBFFFFF0C 2)

/-- A `write` of 3 bytes to descriptor 1 from the buffer at `0x08048100`, which
holds `a`, `b`, `c`. -/
def console_write_state : State :=
  entry_state 0xBFFFFF00
    (word_at 0xBFFFFF00 9 ++ word_at 0xBFFFFF04 1 ++ word_at 0xBFFFFF08 0x08048100
      ++ word_at 0xBFFFFF0C 3 ++ [(0x08048100, 0x61), (0x08048101, 0x62), (0x08048102, 0x63)])

/-! ## Basic facts about the embedding -/

/-- Unfolding of sequencing. -/
theorem bind_apply {α β : Type} (m : M α) (f : α → M β) (s : State) :
    (m >>= f) s = M.bind m f s := rfl

/-- Left identity of sequencing. -/
theorem pure_bind_M {α β : Type} (v : α) (f : α → M β) :
    ((pure v : M α) >>= f) = f v := rfl

/-- Marshaling zero words returns the array as it is. -/
theorem get_argument_zero (esp : Nat) (arg : List Int) :
    get_argument esp arg 0 = pure arg := rfl

/-- Unfolding of `pure`. -/
theorem pure_apply {α : Type} (v : α) (s : State) :
    (pure v : M α) s = Outcome.ret v s := rfl

/-- A byte is below 256. -/
theorem read_byte_lt (mem : Nat → Nat) (a : Nat) : read_byte mem a < 256 :=
  Nat.mod_lt _ (by decide)

/-- A loaded word is below `2 ^ 32`. -/
theorem read_word_lt (mem : Nat → Nat) (a : Nat) : read_word mem a < 2 ^ 32 := by
  have h0 := read_byte_lt mem a
  have h1 := read_byte_lt mem (a + 1)
  have h2 := read_byte_lt mem (a + 2)
  have h3 := read_byte_lt mem (a + 3)
  simp only [read_word]
  omega

/-- The round trip word, `int`, word is the identity. -/
theorem toU32_toInt32 (w : Nat) (h : w < 2 ^ 32) : toU32 (toInt32 w) = w := by
  have hm : w % 2 ^ 32 = w := Nat.mod_eq_of_lt h
  simp only [toU32, toInt32, hm]
  split <;> omega

/-- An address at or below the low bound, or at or above the high bound, is
rejected. -/
theorem check_address_bad (a : Nat) (s : State) (ha : a < 2 ^ 32)
    (h : a ≤ 0x8048000 ∨ 0xc0000000 ≤ a) :
    check_address a s = Outcome.exited
      { s with exit_status := some (-1),
               trace := s.trace ++ [Event.printf_exit (-1), Event.thread_exit] } := by
  have hu : u32 a = a := Nat.mod_eq_of_lt ha
  simp only [check_address, hu, sys_exit]
  rw [if_pos h]

/-- An address strictly between the bounds is accepted. -/
theorem check_address_ok (a : Nat) (s : State)
    (h1 : 0x8048000 < a) (h2 : a < 0xc0000000) :
    check_address a s = Outcome.ret () s := by
  have hu : u32 a = a := Nat.mod_eq_of_lt (by omega)
  simp only [check_address, hu]
  rw [if_neg (by omega)]

/-- Shifting the start of a run of loads by one word. -/
theorem word_reads_succ (esp n : Nat) :
    word_reads esp (n + 1) = Event.read_word esp :: word_reads (esp + 4) n := by
  simp only [word_reads, List.range_succ_eq_map, List.map_cons, List.map_map,
    Nat.mul_zero, Nat.add_zero]
  congr 1
  apply List.map_congr_left
  intro i _
  simp only [Function.comp, Nat.succ_eq_add_one]
  congr 1
  omega

/-- One iteration of the marshaling loop at an accepted address. -/
theorem get_argument_loop_step (esp : Nat) (arg : List Int) (i n : Nat) (s : State)
    (h1 : 0x8048000 < esp) (h2 : esp < 0xc0000000) :
    get_argument_loop esp arg (i + 0) (n + 1) s =
      get_argument_loop (esp + 4) (arg.set i (toInt32 (read_word s.mem esp))) (i + 1) n
        { s with trace := s.trace ++ [Event.read_word esp] } := by
  have hm : (esp + 4) % 2 ^ 32 = esp + 4 := Nat.mod_eq_of_lt (by omega)
  simp only [get_argument_loop, bind_apply, M.bind, check_address_ok esp s h1 h2,
    deref_word, hm, Nat.add_zero]

/-- The marshaling loop over accepted addresses returns, having loaded the `n`
words in order and stored them in `arg[i .. i+n)`. -/
theorem get_argument_loop_ok (n : Nat) : ∀ (esp : Nat) (arg : List Int) (i : Nat) (s : State),
    i + n ≤ arg.length →
    (∀ k, k < n → 0x8048000 < esp + 4 * k ∧ esp + 4 * k < 0xc0000000) →
    ∃ out : List Int,
      get_argument_loop esp arg i n s
        = Outcome.ret out { s with trace := s.trace ++ word_reads esp n } ∧
      out.length = arg.length ∧
      (∀ k, k < n → out.getD (i + k) 0 = toInt32 (read_word s.mem (esp + 4 * k))) ∧
      (∀ m, (m < i ∨ i + n ≤ m) → out.getD m 0 = arg.getD m 0) := by
  induction n with
  | zero =>
    intro esp arg i s _ _
    refine ⟨arg, ?_, rfl, ?_, ?_⟩
    · simp [get_argument_loop, pure_apply, word_reads]
    · intro k hk; omega
    · intro m _; rfl
  | succ n ih =>
    intro esp arg i s hlen hv
    have h0 := hv 0 (by omega)
    simp only [Nat.mul_zero, Nat.add_zero] at h0
    have hstep := get_argument_loop_step esp arg i n s h0.1 h0.2
    simp only [Nat.add_zero] at hstep
    obtain ⟨out, hrun, hl, hget, hrest⟩ :=
      ih (esp + 4) (arg.set i (toInt32 (read_word s.mem esp))) (i + 1)
        { s with trace := s.trace ++ [Event.read_word esp] }
        (by simp only [List.length_set]; omega)
        (by
          intro k hk
          have := hv (k + 1) (by omega)
          constructor <;> omega)
    refine ⟨out, ?_, ?_, ?_, ?_⟩
    · rw [hstep, hrun, word_reads_succ]
      simp [List.append_assoc]
    · simpa [List.length_set] using hl
    · intro k hk
      cases k with
      | zero =>
        have := hrest i (Or.inl (by omega))
        simp only [Nat.add_zero, Nat.mul_zero]
        rw [this]
        have hi : i < arg.length := by omega
        simp [List.getD_eq_getElem?_getD, List.getElem?_set, hi]
      | succ k =>
        have := hget k (by omega)
        have e1 : i + (k + 1) = i + 1 + k := by omega
        have e2 : esp + 4 * (k + 1) = esp + 4 + 4 * k := by omega
        rw [e1, e2]
        exact this
    · intro m hm
      have hm2 : m < i + 1 ∨ i + 1 + n ≤ m := by omega
      rw [hrest m hm2]
      have hne : i ≠ m := by omega
      simp [List.getD_eq_getElem?_getD, List.getElem?_set, hne]

/-- The marshaling loop stops at the first rejected address `esp + 4 * j`: the
words before it were loaded, nothing at or after it is. -/
theorem get_argument_loop_bad (n : Nat) : ∀ (esp : Nat) (arg : List Int) (i : Nat) (s : State)
    (j : Nat), esp < 2 ^ 32 → j < n →
    (∀ k, k < j → 0x8048000 < esp + 4 * k ∧ esp + 4 * k < 0xc0000000) →
    (esp + 4 * j ≤ 0x8048000 ∨ 0xc0000000 ≤ esp + 4 * j) →
    get_argument_loop esp arg i n s
      = Outcome.exited
          { s with exit_status := some (-1),
                   trace := s.trace ++ word_reads esp j
                     ++ [Event.printf_exit (-1), Event.thread_exit] } := by
  induction n with
  | zero => intro esp arg i s j _ hj; omega
  | succ n ih =>
    intro esp arg i s j hesp hj hv hbad
    cases j with
    | zero =>
      simp only [Nat.mul_zero, Nat.add_zero] at hbad
      simp only [get_argument_loop, bind_apply, M.bind,
        check_address_bad esp s hesp hbad, word_reads, List.range_zero, List.map_nil,
        List.append_nil]
    | succ j =>
      have h0 := hv 0 (by omega)
      simp only [Nat.mul_zero, Nat.add_zero] at h0
      have hstep := get_argument_loop_step esp arg i n s h0.1 h0.2
      simp only [Nat.add_zero] at hstep
      rw [hstep, ih (esp + 4) _ (i + 1) _ j (by omega) (by omega)
        (by
          intro k hk
          have := hv (k + 1) (by omega)
          constructor <;> omega)
        (by omega), word_reads_succ]
      simp [List.append_assoc]

/-- A word above 12 is not one of the thirteen syscall numbers. -/
theorem toInt32_out_of_range (w : Nat) (hw : w < 2 ^ 32) (h : 12 < w) :
    toInt32 w < 0 ∨ 12 < toInt32 w := by
  have hm : w % 2 ^ 32 = w := Nat.mod_eq_of_lt hw
  simp only [toInt32, hm]
  split <;> omega

/-- The table has no entry above 12. -/
theorem syscall_table_spec_none (w : Nat) (h : 12 < w) : syscall_table_spec w = none := by
  obtain ⟨k, rfl⟩ : ∃ k, w = k + 13 := ⟨w - 13, by omega⟩
  rfl

/-- The validation of the buffer in the dispatcher is the one `sys_write`
performs on entry. -/
theorem sys_write_checked {β : Type} (env : Env) (fd : Int) (a n : Nat) (g : Int → M β) :
    (check_address a >>= fun _ => sys_write env fd a n >>= g)
      = (sys_write env fd a n >>= g) := by
  funext s
  by_cases h : u32 a ≤ 0x8048000 ∨ u32 a ≥ 0xc0000000
  · simp [sys_write, bind_apply, M.bind, check_address, h, sys_exit]
  · simp [bind_apply, M.bind, check_address, h]

/-- The switch of `syscall_handler` is the table lookup followed by marshaling
and invocation. -/
theorem switch_eq_dispatch (env : Env) (esp w : Nat) (hw : w < 2 ^ 32) :
    syscall_switch env esp (toInt32 w) = dispatch_spec env esp w := by
  by_cases h12 : w ≤ 12
  · interval_cases w <;>
      simp [syscall_switch, dispatch_spec, toInt32, syscall_table_spec, invoke_spec,
        get_argument_zero, pure_bind_M]
    refine congrArg (fun k => get_argument esp arg_init 3 >>= k) ?_
    funext arg
    exact (sys_write_checked env _ _ _ _).symm
  · have hz := toInt32_out_of_range w hw (by omega)
    simp only [dispatch_spec, syscall_table_spec_none w (by omega)]
    generalize toInt32 w = z at hz
    unfold syscall_switch
    repeat rw [if_neg (by omega)]

/-- The handler is the table-driven dispatcher of the specification. -/
theorem handler_refines (env : Env) (s : State) :
    syscall_handler env s = syscall_dispatch_spec env s := by
  simp only [syscall_handler, syscall_dispatch_spec, bind_apply, M.bind, get_esp]
  cases hc : check_address s.esp s with
  | exited s1 => rfl
  | halted s1 => rfl
  | ret v s1 =>
    simp only [deref_word]
    rw [switch_eq_dispatch env _ _ (read_word_lt _ _)]

/-- A word produced by `toU32` is below `2 ^ 32`. -/
theorem toU32_lt (i : Int) : toU32 i < 2 ^ 32 := by
  simp only [toU32]
  omega

/-- The cast to `uint32_t` of a word is the word. -/
theorem u32_of_lt (n : Nat) (h : n < 2 ^ 32) : u32 n = n := Nat.mod_eq_of_lt h

/-- Validation either returns with the state unchanged or does not return. -/
theorem check_address_ret (a : Nat) (s s1 : State) (v : Unit)
    (h : check_address a s = Outcome.ret v s1) : s1 = s := by
  by_cases hc : u32 a ≤ 0x8048000 ∨ u32 a ≥ 0xc0000000
  · simp [check_address, hc, sys_exit] at h
  · simp only [check_address, if_neg hc, Outcome.ret.injEq] at h
    exact h.2.symm

/-- Marshaling does not write the return register. -/
theorem get_argument_loop_eax (n : Nat) : ∀ (esp : Nat) (arg : List Int) (i : Nat)
    (s : State) (out : List Int) (s1 : State),
    get_argument_loop esp arg i n s = Outcome.ret out s1 → s1.eax = s.eax := by
  induction n with
  | zero =>
    intro esp arg i s out s1 h
    simp only [get_argument_loop, pure_apply, Outcome.ret.injEq] at h
    rw [← h.2]
  | succ n ih =>
    intro esp arg i s out s1 h
    by_cases hc : u32 esp ≤ 0x8048000 ∨ u32 esp ≥ 0xc0000000
    · simp [get_argument_loop, bind_apply, M.bind, check_address, hc, sys_exit] at h
    · simp only [get_argument_loop, bind_apply, M.bind, check_address, if_neg hc,
        deref_word] at h
      have := ih _ _ _ _ _ _ h
      exact this

/-- `sys_seek` does not write the return register. -/
theorem sys_seek_eax (fd : Int) (pos : Nat) (s : State) :
    (sys_seek fd pos s).state.eax = s.eax := by
  simp only [sys_seek, bind_apply, M.bind, process_get_file]
  cases (fd_lookup s.fd_table fd) <;> rfl

/-- `sys_close` does not write the return register. -/
theorem sys_close_eax (fd : Int) (s : State) :
    (sys_close fd s).state.eax = s.eax := by
  simp only [sys_close, bind_apply, M.bind, lock_acquire, process_close_file]
  cases (fd_lookup s.fd_table fd) <;> rfl

/-- Storing a word in the return register stores it unchanged. -/
theorem set_eax_word (r : Nat) (h : r < 2 ^ 32) (s : State) :
    set_eax r s = Outcome.ret () { s with eax := r } := by
  simp only [set_eax, u32_of_lt r h]

/-- A `bool` converted to a word is below `2 ^ 32`. -/
theorem boolU32_lt (b : Bool) : boolU32 b < 2 ^ 32 := by
  cases b <;> simp [boolU32]

/-- The word returned by `sys_tell` is below `2 ^ 32`. -/
theorem sys_tell_lt (env : Env) (fd : Int) (s s2 : State) (r : Nat)
    (h : sys_tell env fd s = Outcome.ret r s2) : r < 2 ^ 32 := by
  simp only [sys_tell, bind_apply, M.bind, process_get_file] at h
  cases hl : (fd_lookup s.fd_table fd) with
  | none =>
    rw [hl] at h
    simp only [pure_apply, Outcome.ret.injEq] at h
    rw [← h.1]
    exact toU32_lt _
  | some f =>
    rw [hl] at h
    simp only [bind_apply, M.bind, lock_acquire, file_tell, lock_release, pure_apply,
      Outcome.ret.injEq] at h
    rw [← h.1]
    exact toU32_lt _

/-- When a `case` of the switch returns, its service call returned, and the
final state is the state at the return of the service with `eax` replaced by
the returned word, or that state itself when the case assigns nothing. -/
theorem invoke_returns (env : Env) (sc : Syscall) (arg : List Int) (s s' : State)
    (h : invoke_spec env sc arg s = Outcome.ret () s') :
    ∃ (v : Option Nat) (s2 : State),
      service_call env sc arg s = Outcome.ret v s2 ∧
      v.isSome = returns_value_spec sc ∧
      (∀ r, v = some r → s' = { s2 with eax := r }) ∧
      (v = none → s' = s2 ∧ s2.eax = s.eax) := by
  cases sc
  case halt => simp [invoke_spec, sys_halt] at h
  case exit => simp [invoke_spec, sys_exit] at h
  case exec =>
    simp only [invoke_spec, bind_apply, M.bind] at h
    cases hc : check_address (toU32 (arg.getD 0 0)) s with
    | exited s1 => rw [hc] at h; cases h
    | halted s1 => rw [hc] at h; cases h
    | ret u s1 =>
      obtain rfl := check_address_ret _ _ _ _ hc
      rw [hc] at h
      simp only [] at h
      cases hs : sys_exec env (toU32 (arg.getD 0 0)) s1 with
      | exited s2 => rw [hs] at h; cases h
      | halted s2 => rw [hs] at h; cases h
      | ret r s2 =>
        rw [hs] at h
        simp only [set_eax_word _ (toU32_lt r), Outcome.ret.injEq, true_and] at h
        refine ⟨some (toU32 r), s2, ?_, rfl, ?_, ?_⟩
        · simp only [service_call, bind_apply, M.bind, hs, pure_apply]
        · intro r1 hr1
          cases hr1
          exact h.symm
        · intro hn; cases hn
  case wait =>
    simp only [invoke_spec, bind_apply, M.bind] at h
    cases hs : sys_wait env (arg.getD 0 0) s with
    | exited s2 => rw [hs] at h; cases h
    | halted s2 => rw [hs] at h; cases h
    | ret r s2 =>
      rw [hs] at h
      simp only [set_eax_word _ (toU32_lt r), Outcome.ret.injEq, true_and] at h
      refine ⟨some (toU32 r), s2, ?_, rfl, ?_, ?_⟩
      · simp only [service_call, bind_apply, M.bind, hs, pure_apply]
      · intro r1 hr1
        cases hr1
        exact h.symm
      · intro hn; cases hn
  case create =>
    simp only [invoke_spec, bind_apply, M.bind] at h
    cases hc : check_address (toU32 (arg.getD 0 0)) s with
    | exited s1 => rw [hc] at h; cases h
    | halted s1 => rw [hc] at h; cases h
    | ret u s1 =>
      obtain rfl := check_address_ret _ _ _ _ hc
      rw [hc] at h
      simp only [] at h
      cases hs : sys_create env (toU32 (arg.getD 0 0)) (toU32 (arg.getD 1 0)) s1 with
      | exited s2 => rw [hs] at h; cases h
      | halted s2 => rw [hs] at h; cases h
      | ret r s2 =>
        rw [hs] at h
        simp only [set_eax_word _ (boolU32_lt r), Outcome.ret.injEq, true_and] at h
        refine ⟨some (boolU32 r), s2, ?_, rfl, ?_, ?_⟩
        · simp only [service_call, bind_apply, M.bind, hs, pure_apply]
        · intro r1 hr1
          cases hr1
          exact h.symm
        · intro hn; cases hn
  case remove =>
    simp only [invoke_spec, bind_apply, M.bind] at h
    cases hc : check_address (toU32 (arg.getD 0 0)) s with
    | exited s1 => rw [hc] at h; cases h
    | halted s1 => rw [hc] at h; cases h
    | ret u s1 =>
      obtain rfl := check_address_ret _ _ _ _ hc
      rw [hc] at h
      simp only [] at h
      cases hs : sys_remove env (toU32 (arg.getD 0 0)) s1 with
      | exited s2 => rw [hs] at h; cases h
      | halted s2 => rw [hs] at h; cases h
      | ret r s2 =>
        rw [hs] at h
        simp only [set_eax_word _ (boolU32_lt r), Outcome.ret.injEq, true_and] at h
        refine ⟨some (boolU32 r), s2, ?_, rfl, ?_, ?_⟩
        · simp only [service_call, bind_apply, M.bind, hs, pure_apply]
        · intro r1 hr1
          cases hr1
          exact h.symm
        · intro hn; cases hn
  case «open» =>
    simp only [invoke_spec, bind_apply, M.bind] at h
    cases hc : check_address (toU32 (arg.getD 0 0)) s with
    | exited s1 => rw [hc] at h; cases h
    | halted s1 => rw [hc] at h; cases h
    | ret u s1 =>
      obtain rfl := check_address_ret _ _ _ _ hc
      rw [hc] at h
      simp only [] at h
      cases hs : sys_open env (toU32 (arg.getD 0 0)) s1 with
      | exited s2 => rw [hs] at h; cases h
      | halted s2 => rw [hs] at h; cases h
      | ret r s2 =>
        rw [hs] at h
        simp only [set_eax_word _ (toU32_lt r), Outcome.ret.injEq, true_and] at h
        refine ⟨some (toU32 r), s2, ?_, rfl, ?_, ?_⟩
        · simp only [service_call, bind_apply, M.bind, hs, pure_apply]
        · intro r1 hr1
          cases hr1
          exact h.symm
        · intro hn; cases hn
  case filesize =>
    simp only [invoke_spec, bind_apply, M.bind] at h
    cases hs : sys_filesize env (arg.getD 0 0) s with
    | exited s2 => rw [hs] at h; cases h
    | halted s2 => rw [hs] at h; cases h
    | ret r s2 =>
      rw [hs] at h
      simp only [set_eax_word _ (toU32_lt r), Outcome.ret.injEq, true_and] at h
      refine ⟨some (toU32 r), s2, ?_, rfl, ?_, ?_⟩
      · simp only [service_call, bind_apply, M.bind, hs, pure_apply]
      · intro r1 hr1
        cases hr1
        exact h.symm
      · intro hn; cases hn
  case read =>
    simp only [invoke_spec, bind_apply, M.bind] at h
    cases hc : check_address (toU32 (arg.getD 1 0)) s with
    | exited s1 => rw [hc] at h; cases h
    | halted s1 => rw [hc] at h; cases h
    | ret u s1 =>
      obtain rfl := check_address_ret _ _ _ _ hc
      rw [hc] at h
      simp only [] at h
      cases hs : sys_read env (arg.getD 0 0) (toU32 (arg.getD 1 0)) (toU32 (arg.getD 2 0)) s1 with
      | exited s2 => rw [hs] at h; cases h
      | halted s2 => rw [hs] at h; cases h
      | ret r s2 =>
        rw [hs] at h
        simp only [set_eax_word _ (toU32_lt r), Outcome.ret.injEq, true_and] at h
        refine ⟨some (toU32 r), s2, ?_, rfl, ?_, ?_⟩
        · simp only [service_call, bind_apply, M.bind, hs, pure_apply]
        · intro r1 hr1
          cases hr1
          exact h.symm
        · intro hn; cases hn
  case write =>
    simp only [invoke_spec, bind_apply, M.bind] at h
    cases hc : check_address (toU32 (arg.getD 1 0)) s with
    | exited s1 => rw [hc] at h; cases h
    | halted s1 => rw [hc] at h; cases h
    | ret u s1 =>
      obtain rfl := check_address_ret _ _ _ _ hc
      rw [hc] at h
      simp only [] at h
      cases hs : sys_write env (arg.getD 0 0) (toU32 (arg.getD 1 0)) (toU32 (arg.getD 2 0)) s1 with
      | exited s2 => rw [hs] at h; cases h
      | halted s2 => rw [hs] at h; cases h
      | ret r s2 =>
        rw [hs] at h
        simp only [set_eax_word _ (toU32_lt r), Outcome.ret.injEq, true_and] at h
        refine ⟨some (toU32 r), s2, ?_, rfl, ?_, ?_⟩
        · simp only [service_call, bind_apply, M.bind, hs, pure_apply]
        · intro r1 hr1
          cases hr1
          exact h.symm
        · intro hn; cases hn
  case seek =>
    simp only [invoke_spec] at h
    refine ⟨none, s', ?_, rfl, ?_, ?_⟩
    · simp only [service_call, bind_apply, M.bind, h, pure_apply]
    · intro r1 hr1; cases hr1
    · intro _
      refine ⟨rfl, ?_⟩
      have he := sys_seek_eax (arg.getD 0 0) (toU32 (arg.getD 1 0)) s
      rw [h] at he
      exact he
  case tell =>
    simp only [invoke_spec, bind_apply, M.bind] at h
    cases hs : sys_tell env (arg.getD 0 0) s with
    | exited s2 => rw [hs] at h; cases h
    | halted s2 => rw [hs] at h; cases h
    | ret r s2 =>
      rw [hs] at h
      simp only [set_eax_word _ (sys_tell_lt env _ _ _ _ hs), Outcome.ret.injEq, true_and] at h
      refine ⟨some (r), s2, ?_, rfl, ?_, ?_⟩
      · simp only [service_call, bind_apply, M.bind, hs, pure_apply]
      · intro r1 hr1
        cases hr1
        exact h.symm
      · intro hn; cases hn
  case close =>
    simp only [invoke_spec] at h
    refine ⟨none, s', ?_, rfl, ?_, ?_⟩
    · simp only [service_call, bind_apply, M.bind, h, pure_apply]
    · intro r1 hr1; cases hr1
    · intro _
      refine ⟨rfl, ?_⟩
      have he := sys_close_eax (arg.getD 0 0) s
      rw [h] at he
      exact he

/-- The console loop of `sys_read` always returns; it consumes `n` input bytes
and touches neither the lock nor the return register. -/
theorem sys_read_loop_run (env : Env) (buffer : Nat) (n : Nat) : ∀ (s : State),
    sys_read_loop env buffer n s
      = Outcome.ret ()
          { s with mem := console_mem env buffer s.mem s.input_pos n,
                   input_pos := s.input_pos + n,
                   trace := s.trace ++ console_events env buffer s.input_pos n } := by
  induction n with
  | zero =>
    intro s
    simp [sys_read_loop, pure_apply, console_mem, console_events]
  | succ n ih =>
    intro s
    simp only [sys_read_loop, bind_apply, M.bind, input_getc, store_byte, ih,
      console_mem, console_events, List.append_assoc, List.singleton_append,
      Nat.add_assoc, Nat.add_comm 1 n]
    rfl

/-- Every store of the console loop goes to the address `buffer`: any other
byte of memory is unchanged. -/
theorem console_mem_other (env : Env) (buffer : Nat) (n : Nat) :
    ∀ (mem : Nat → Nat) (pos x : Nat), x ≠ buffer % 2 ^ 32 →
      console_mem env buffer mem pos n x = mem x := by
  induction n with
  | zero => intro mem pos x _; rfl
  | succ n ih =>
    intro mem pos x hx
    simp only [console_mem]
    rw [ih _ _ _ hx]
    simp only [write_byte, if_neg hx]

/-- After at least one iteration, the byte at `buffer` is the last input byte
consumed. -/
theorem console_mem_buffer (env : Env) (buffer : Nat) (n : Nat) :
    ∀ (mem : Nat → Nat) (pos : Nat),
      console_mem env buffer mem pos (n + 1) (buffer % 2 ^ 32)
        = env.input (pos + n) % 256 := by
  induction n with
  | zero =>
    intro mem pos
    simp [console_mem, write_byte]
  | succ n ih =>
    intro mem pos
    rw [console_mem, ih]
    congr 2
    omega

/-- Console events leave the lock as it is. -/
theorem lock_ok_console (env : Env) (buffer : Nat) (n : Nat) :
    ∀ (pos : Nat) (held : Bool), lock_ok held (console_events env buffer pos n) = some held := by
  induction n with
  | zero => intro pos held; rfl
  | succ n ih =>
    intro pos held
    simp [console_events, lock_ok, Event.isFilesys, ih]

/-- The console branch of `sys_read`, for an accepted buffer address: it
returns `size` as an `int`, the memory being that left by the console loop. -/
theorem sys_read_console (env : Env) (buffer size : Nat) (s : State)
    (h1 : 0x8048000 < buffer) (h2 : buffer < 0xc0000000) :
    sys_read env 0 buffer size s
      = Outcome.ret (toInt32 size)
          { s with mem := console_mem env buffer s.mem s.input_pos size,
                   input_pos := s.input_pos + size,
                   trace := s.trace ++ console_events env buffer s.input_pos size } := by
  simp only [sys_read, bind_apply, M.bind, check_address_ok buffer s h1 h2,
    process_get_file, if_true, sys_read_loop_run, pure_apply]

/-- The console branch of `sys_write`, for an accepted buffer address. -/
theorem sys_write_console (env : Env) (buffer size : Nat) (s : State)
    (h1 : 0x8048000 < buffer) (h2 : buffer < 0xc0000000) :
    sys_write env 1 buffer size s
      = Outcome.ret (toInt32 size)
          { s with trace := s.trace ++ [Event.putbuf (read_bytes s.mem buffer size)] } := by
  simp only [sys_write, bind_apply, M.bind, check_address_ok buffer s h1 h2,
    process_get_file, if_true, putbuf, pure_apply]

/-- With an accepted stack pointer, the handler loads the syscall number and
continues as the table-driven dispatcher on the next stack slot. -/
theorem handler_run (env : Env) (s : State)
    (h1 : 0x08048000 < s.esp) (h2 : s.esp < 0xC0000000) :
    syscall_handler env s
      = dispatch_spec env (s.esp + 4) (read_word s.mem s.esp)
          { s with trace := s.trace ++ [Event.read_word s.esp] } := by
  have hm : (s.esp + 4) % 2 ^ 32 = s.esp + 4 := Nat.mod_eq_of_lt (by omega)
  rw [handler_refines]
  simp only [syscall_dispatch_spec, bind_apply, M.bind, get_esp,
    check_address_ok s.esp s h1 h2, deref_word, hm]

/-- The argument counts of the table are at most 3. -/
theorem syscall_table_spec_count (w : Nat) (sc : Syscall) (n : Nat)
    (htab : syscall_table_spec w = some (sc, n)) : n ≤ 3 := by
  unfold syscall_table_spec at htab
  split at htab <;> first
    | (simp only [Option.some.injEq, Prod.mk.injEq] at htab; omega)
    | exact absurd htab (by simp)

/-- With accepted stack slots, the handler invokes the table's handler on the
words of the slots, after loading the syscall number and these words. -/
theorem handler_marshaled (env : Env) (s : State)
    (h1 : 0x08048000 < s.esp) (h2 : s.esp < 0xC0000000) (sc : Syscall) (n : Nat)
    (htab : syscall_table_spec (read_word s.mem s.esp) = some (sc, n))
    (hv : ∀ i, i < n → 0x08048000 < s.esp + 4 + 4 * i ∧ s.esp + 4 + 4 * i < 0xC0000000) :
    ∃ arg : List Int,
      (∀ i, i < n → arg.getD i 0 = toInt32 (read_word s.mem (s.esp + 4 + 4 * i))) ∧
      syscall_handler env s
        = invoke_spec env sc arg
            { s with trace := s.trace ++ word_reads s.esp (n + 1) } := by
  have hn : n ≤ 3 := syscall_table_spec_count _ sc n htab
  obtain ⟨arg, hget, _, harg, _⟩ :=
    get_argument_loop_ok n (s.esp + 4) arg_init 0
      { s with trace := s.trace ++ [Event.read_word s.esp] }
      (by simp only [arg_init, List.length_cons, List.length_nil]; omega) hv
  refine ⟨arg, ?_, ?_⟩
  · intro i hi
    have := harg i hi
    simpa using this
  · rw [handler_run env s h1 h2]
    simp only [dispatch_spec, htab, bind_apply, M.bind, get_argument, hget,
      word_reads_succ, List.append_assoc, List.singleton_append]

/-! ## Claims -/

/-- C1: for every 32-bit address `a`, `check_address` ends the calling process
through `sys_exit (-1)` exactly when `a ≤ 0x08048000` or `a ≥ 0xC0000000`, the
events it adds are the two of `sys_exit` (no load from user memory), and for
every other address it returns with the state unchanged. -/
theorem check_address_contract (a : Nat) (ha : a < 2 ^ 32) (s : State) :
    (check_address a s = Outcome.exited
        { s with exit_status := some (-1),
                 trace := s.trace ++ [Event.printf_exit (-1), Event.thread_exit] }
      ↔ (a ≤ 0x08048000 ∨ 0xC0000000 ≤ a)) ∧
    (check_address a s = Outcome.ret () s
      ↔ (0x08048000 < a ∧ a < 0xC0000000)) ∧
    ((check_address a s).returned = false ↔ (a ≤ 0x08048000 ∨ 0xC0000000 ≤ a)) ∧
    (∀ e ∈ (check_address a s).state.trace, e ∈ s.trace ∨ e.isRead = false) ∧
    (check_address a s).state.mem = s.mem := by
  by_cases h : a ≤ 0x08048000 ∨ 0xC0000000 ≤ a
  · rw [check_address_bad a s ha h]
    refine ⟨by simp [h], ?_, by simp [h, Outcome.returned], ?_, rfl⟩
    · constructor
      · intro hc; cases hc
      · intro hc; omega
    · intro e he
      simp only [Outcome.state, List.mem_append, List.mem_cons, List.mem_singleton,
        List.not_mem_nil, or_false] at he
      rcases he with he | he | he
      · exact Or.inl he
      · right; subst he; rfl
      · right; subst he; rfl
  · have h1 : 0x08048000 < a := by omega
    have h2 : a < 0xC0000000 := by omega
    rw [check_address_ok a s h1 h2]
    refine ⟨?_, by simp [h1, h2], by simp [h, Outcome.returned], ?_, rfl⟩
    · constructor
      · intro hc; cases hc
      · intro hc; exact absurd hc h
    · intro e he; exact Or.inl he

/-- Instance of C1 at the rejected address `0x08048000`: the process is
terminated with status -1 and nothing is loaded. -/
theorem check_address_contract_witness :
    (0x08048000 : Nat) < 2 ^ 32 ∧
    check_address 0x08048000 (entry_state 0xBFFFFF00 [])
      = Outcome.exited
          { entry_state 0xBFFFFF00 [] with
              exit_status := some (-1),
              trace := (entry_state 0xBFFFFF00 []).trace
                ++ [Event.printf_exit (-1), Event.thread_exit] } :=
  ⟨by decide,
    (check_address_contract 0x08048000 (by decide) (entry_state 0xBFFFFF00 [])).1.2
      (Or.inl (Nat.le_refl _))⟩

/-- C2: for a 32-bit stack address `esp`, any memory and any count `N ≤ 4`:
if the `N` addresses `esp + 4 * i` all pass validation, `get_argument` returns
with `arg[i]` equal to the word stored at `esp + 4 * i` (same bit pattern),
having loaded exactly these words in order and changed nothing else; if the
first address failing validation has index `j`, the process is terminated with
status -1 after loading only the words of index below `j`. -/
theorem get_argument_contract (esp : Nat) (hesp : esp < 2 ^ 32) (arg : List Int)
    (harg : arg.length = 4) (N : Nat) (hN : N ≤ 4) (s : State) :
    ((∀ i, i < N → 0x08048000 < esp + 4 * i ∧ esp + 4 * i < 0xC0000000) →
      ∃ out : List Int,
        get_argument esp arg N s
          = Outcome.ret out { s with trace := s.trace ++ word_reads esp N } ∧
        (∀ i, i < N → out.getD i 0 = toInt32 (read_word s.mem (esp + 4 * i)) ∧
                      toU32 (out.getD i 0) = read_word s.mem (esp + 4 * i))) ∧
    (∀ j, j < N →
      (∀ i, i < j → 0x08048000 < esp + 4 * i ∧ esp + 4 * i < 0xC0000000) →
      (esp + 4 * j ≤ 0x08048000 ∨ 0xC0000000 ≤ esp + 4 * j) →
      get_argument esp arg N s
        = Outcome.exited
            { s with exit_status := some (-1),
                     trace := s.trace ++ word_reads esp j
                       ++ [Event.printf_exit (-1), Event.thread_exit] }) := by
  constructor
  · intro hv
    obtain ⟨out, hrun, _, hget, _⟩ :=
      get_argument_loop_ok N esp arg 0 s (by omega) hv
    refine ⟨out, hrun, ?_⟩
    intro i hi
    have h := hget i hi
    simp only [Nat.zero_add] at h
    exact ⟨h, by rw [h]; exact toU32_toInt32 _ (read_word_lt _ _)⟩
  · intro j hj hv hbad
    exact get_argument_loop_bad N esp arg 0 s j hesp hj hv hbad


/-- Instance of C2: with `esp = 0xBFFFFFFC` and two words requested, the first
slot is accepted and the second (`0xC0000000`) is rejected, so one word is
loaded and the process is terminated with status -1. -/
theorem get_argument_contract_witness :
    (0xBFFFFFFC : Nat) < 2 ^ 32 ∧ arg_init.length = 4 ∧ 2 ≤ 4 ∧
    get_argument 0xBFFFFFFC arg_init 2 (entry_state 0xBFFFFFF8 [])
      = Outcome.exited
          { entry_state 0xBFFFFFF8 [] with
              exit_status := some (-1),
              trace := (entry_state 0xBFFFFFF8 []).trace ++ word_reads 0xBFFFFFFC 1
                ++ [Event.printf_exit (-1), Event.thread_exit] } :=
  ⟨by decide, rfl, by decide,
    (get_argument_contract 0xBFFFFFFC (by decide) arg_init rfl 2 (by decide)
      (entry_state 0xBFFFFFF8 [])).2 1 (by decide)
      (by intro i hi; interval_cases i; decide) (by decide)⟩

/-- C3: for every trap frame whose stack pointer passes validation, with `k`
the word at `esp`: the handler loads `k`, then does what the fixed table
halt(0), exit(1), exec(1), wait(1), create(2), remove(1), open(1), filesize(1),
read(3), write(3), seek(2), tell(1), close(1) gives for `k`: it marshals that
many words starting at `esp + 4` and invokes that handler on them in
left-to-right order (when the slots pass validation the arguments are exactly
the words at `esp + 4`, `esp + 8`, ... and the loads are exactly those of
`esp`, `esp + 4`, ...); the table has an entry exactly for `k ≤ 12`, and for
every other `k` the handler returns having only loaded the syscall number. -/
theorem syscall_handler_routing (env : Env) (s : State)
    (h1 : 0x08048000 < s.esp) (h2 : s.esp < 0xC0000000) :
    (syscall_handler env s
      = dispatch_spec env (s.esp + 4) (read_word s.mem s.esp)
          { s with trace := s.trace ++ [Event.read_word s.esp] }) ∧
    (∀ sc n, syscall_table_spec (read_word s.mem s.esp) = some (sc, n) →
      (∀ i, i < n → 0x08048000 < s.esp + 4 + 4 * i ∧ s.esp + 4 + 4 * i < 0xC0000000) →
      ∃ arg : List Int,
        (∀ i, i < n → arg.getD i 0 = toInt32 (read_word s.mem (s.esp + 4 + 4 * i))) ∧
        syscall_handler env s
          = invoke_spec env sc arg
              { s with trace := s.trace ++ word_reads s.esp (n + 1) }) ∧
    (read_word s.mem s.esp ≤ 12 ↔ (syscall_table_spec (read_word s.mem s.esp)).isSome) ∧
    (12 < read_word s.mem s.esp →
      syscall_handler env s
        = Outcome.ret () { s with trace := s.trace ++ [Event.read_word s.esp] }) := by
  refine ⟨handler_run env s h1 h2, handler_marshaled env s h1 h2, ?_, ?_⟩
  · by_cases h12 : read_word s.mem s.esp ≤ 12
    · simp only [h12, true_iff]
      generalize read_word s.mem s.esp = w at h12
      interval_cases w <;> rfl
    · simp [h12, syscall_table_spec_none _ (Nat.lt_of_not_le h12)]
  · intro h12
    rw [handler_run env s h1 h2]
    simp only [dispatch_spec, syscall_table_spec_none _ h12, pure_apply]

/-- Instance of C3: the syscall number 13 at `esp = 0xBFFFFF00` is outside the
table; the handler returns after loading only that word. -/
theorem syscall_handler_routing_witness :
    0x08048000 < (entry_state 0xBFFFFF00 (word_at 0xBFFFFF00 13)).esp ∧
    (entry_state 0xBFFFFF00 (word_at 0xBFFFFF00 13)).esp < 0xC0000000 ∧
    syscall_handler sample_env (entry_state 0xBFFFFF00 (word_at 0xBFFFFF00 13))
      = Outcome.ret ()
          { entry_state 0xBFFFFF00 (word_at 0xBFFFFF00 13) with
              trace := (entry_state 0xBFFFFF00 (word_at 0xBFFFFF00 13)).trace
                ++ [Event.read_word 0xBFFFFF00] } :=
  ⟨by decide, by decide,
    (syscall_handler_routing sample_env (entry_state 0xBFFFFF00 (word_at 0xBFFFFF00 13))
      (by decide) (by decide)).2.2.2 (by decide)⟩

/-- C4: for exec, create, remove, open (argument 0) and read, write
(argument 1): when the stack slots pass validation and the pointer argument is
`≤ 0x08048000` or `≥ 0xC0000000`, the handler terminates the process with
status -1 and the only events before the termination are the loads of the
syscall number and of the argument words: no filesystem, process-spawn or
console call, no lock operation; `eax` and the lock are as before. -/
theorem pointer_argument_validated (env : Env) (s : State)
    (h1 : 0x08048000 < s.esp) (h2 : s.esp < 0xC0000000)
    (sc : Syscall) (n idx : Nat)
    (htab : syscall_table_spec (read_word s.mem s.esp) = some (sc, n))
    (hptr : pointer_arg_spec sc = some idx)
    (hv : ∀ i, i < n → 0x08048000 < s.esp + 4 + 4 * i ∧ s.esp + 4 + 4 * i < 0xC0000000)
    (hbad : read_word s.mem (s.esp + 4 + 4 * idx) ≤ 0x08048000
      ∨ 0xC0000000 ≤ read_word s.mem (s.esp + 4 + 4 * idx)) :
    syscall_handler env s
      = Outcome.exited
          { s with exit_status := some (-1),
                   trace := s.trace ++ word_reads s.esp (n + 1)
                     ++ [Event.printf_exit (-1), Event.thread_exit] } ∧
    (∀ e ∈ word_reads s.esp (n + 1),
      e.isFilesys = false ∧ e.isSpawn = false ∧ e.isConsole = false ∧ e.isLock = false) ∧
    (syscall_handler env s).state.eax = s.eax ∧
    (syscall_handler env s).state.lock_held = s.lock_held ∧
    (syscall_handler env s).returned = false := by
  obtain ⟨arg, harg, hrun⟩ := handler_marshaled env s h1 h2 sc n htab hv
  have hidx : idx < n := by
    generalize read_word s.mem s.esp = w at htab
    unfold syscall_table_spec at htab
    split at htab <;> first
      | (simp only [Option.some.injEq, Prod.mk.injEq] at htab
         obtain ⟨rfl, rfl⟩ := htab
         simp only [pointer_arg_spec, Option.some.injEq] at hptr
         omega)
      | (simp only [Option.some.injEq, Prod.mk.injEq] at htab
         obtain ⟨rfl, rfl⟩ := htab
         exact absurd hptr (by simp [pointer_arg_spec]))
      | exact absurd htab (by simp)
  have hp : toU32 (arg.getD idx 0) = read_word s.mem (s.esp + 4 + 4 * idx) := by
    rw [harg idx hidx]
    exact toU32_toInt32 _ (read_word_lt _ _)
  have hchk := check_address_bad (read_word s.mem (s.esp + 4 + 4 * idx))
    { s with trace := s.trace ++ word_reads s.esp (n + 1) } (read_word_lt _ _) hbad
  have hrun2 : syscall_handler env s
      = Outcome.exited
          { s with exit_status := some (-1),
                   trace := s.trace ++ word_reads s.esp (n + 1)
                     ++ [Event.printf_exit (-1), Event.thread_exit] } := by
    rw [hrun]
    cases sc <;> simp only [pointer_arg_spec, Option.some.injEq] at hptr <;>
      first
      | exact absurd hptr (by simp)
      | (subst hptr
         simp only [invoke_spec, bind_apply, M.bind, hp, hchk, List.append_assoc])
  rw [hrun2]
  refine ⟨rfl, ?_, rfl, rfl, rfl⟩
  intro e he
  simp only [word_reads, List.mem_map] at he
  obtain ⟨i, _, rfl⟩ := he
  exact ⟨rfl, rfl, rfl, rfl⟩

/-- Instance of C4: `write (1, NULL, 5)` terminates the process with status -1
after the four loads from the stack. -/
theorem pointer_argument_validated_witness :
    0x08048000 < write_null_state.esp ∧ write_null_state.esp < 0xC0000000 ∧
    syscall_table_spec (read_word write_null_state.mem write_null_state.esp)
      = some (Syscall.write, 3) ∧
    pointer_arg_spec Syscall.write = some 1 ∧
    read_word write_null_state.mem (write_null_state.esp + 4 + 4 * 1) ≤ 0x08048000 ∧
    syscall_handler sample_env write_null_state
      = Outcome.exited
          { write_null_state with
              exit_status := some (-1),
              trace := write_null_state.trace ++ word_reads write_null_state.esp (3 + 1)
                ++ [Event.printf_exit (-1), Event.thread_exit] } :=
  ⟨by decide, by decide, by decide, rfl, by decide,
    (pointer_argument_validated sample_env write_null_state (by decide) (by decide)
      Syscall.write 3 1 (by decide) rfl
      (by intro i hi; interval_cases i <;> decide) (Or.inl (by decide))).1⟩

/-- C5: when `syscall_handler` returns to its caller, the service of the
syscall number was called on the marshaled arguments and returned; for a
syscall defined to return a value (exec, wait, create, remove, open, filesize,
read, write, tell) the final state is the state at the return of the service
with `eax` set to the returned value as a 32-bit word; for seek and close the
final state is that state and `eax` is what it was at entry. -/
theorem return_register_protocol (env : Env) (s s' : State) (hesp : s.esp < 2 ^ 32)
    (hret : syscall_handler env s = Outcome.ret () s') (sc : Syscall) (n : Nat)
    (htab : syscall_table_spec (read_word s.mem s.esp) = some (sc, n)) :
    ∃ (arg : List Int) (s_m : State) (v : Option Nat) (s2 : State),
      get_argument (s.esp + 4) arg_init n
          { s with trace := s.trace ++ [Event.read_word s.esp] }
        = Outcome.ret arg s_m ∧
      service_call env sc arg s_m = Outcome.ret v s2 ∧
      v.isSome = returns_value_spec sc ∧
      (∀ r, v = some r → s' = { s2 with eax := r } ∧ s'.eax = r) ∧
      (v = none → s' = s2 ∧ s'.eax = s.eax) := by
  have hvalid : 0x08048000 < s.esp ∧ s.esp < 0xC0000000 := by
    by_cases hc : s.esp ≤ 0x08048000 ∨ 0xC0000000 ≤ s.esp
    · have hb := check_address_bad s.esp s hesp hc
      simp [syscall_handler, bind_apply, M.bind, get_esp, hb] at hret
    · omega
  rw [handler_run env s hvalid.1 hvalid.2] at hret
  simp only [dispatch_spec, htab, bind_apply, M.bind] at hret
  cases hg : get_argument (s.esp + 4) arg_init n
      { s with trace := s.trace ++ [Event.read_word s.esp] } with
  | exited s1 => rw [hg] at hret; cases hret
  | halted s1 => rw [hg] at hret; cases hret
  | ret arg s_m =>
    rw [hg] at hret
    have heax : s_m.eax = s.eax := by
      have := get_argument_loop_eax n (s.esp + 4) arg_init 0
        { s with trace := s.trace ++ [Event.read_word s.esp] } arg s_m hg
      exact this
    obtain ⟨v, s2, hcall, hsome, hval, hvoid⟩ := invoke_returns env sc arg s_m s' hret
    refine ⟨arg, s_m, v, s2, rfl, hcall, hsome, ?_, ?_⟩
    · intro r hr
      have := hval r hr
      exact ⟨this, by rw [this]⟩
    · intro hn
      obtain ⟨h1, h2⟩ := hvoid hn
      exact ⟨h1, by rw [h1, h2, heax]⟩

/-- Instance of C5: `filesize (5)` with no file open returns to the dispatcher
with `eax = 0xFFFFFFFF`, the word of the returned -1. -/
theorem return_register_protocol_witness :
    filesize_state.esp < 2 ^ 32 ∧
    syscall_handler sample_env filesize_state
      = Outcome.ret ()
          { filesize_state with
              eax := 0xFFFFFFFF,
              trace := [Event.read_word 0xBFFFFF00, Event.read_word 0xBFFFFF04] } ∧
    ∃ (arg : List Int) (s_m : State) (v : Option Nat) (s2 : State),
      get_argument (filesize_state.esp + 4) arg_init 1
          { filesize_state with
              trace := filesize_state.trace ++ [Event.read_word filesize_state.esp] }
        = Outcome.ret arg s_m ∧
      service_call sample_env Syscall.filesize arg s_m = Outcome.ret v s2 ∧
      v.isSome = returns_value_spec Syscall.filesize ∧
      (∀ r, v = some r →
        ({ filesize_state with
              eax := 0xFFFFFFFF,
              trace := [Event.read_word 0xBFFFFF00, Event.read_word 0xBFFFFF04] } : State)
            = { s2 with eax := r } ∧
        ({ filesize_state with
              eax := 0xFFFFFFFF,
              trace := [Event.read_word 0xBFFFFF00, Event.read_word 0xBFFFFF04] } : State).eax
            = r) ∧
      (v = none →
        ({ filesize_state with
              eax := 0xFFFFFFFF,
              trace := [Event.read_word 0xBFFFFF00, Event.read_word 0xBFFFFF04] } : State)
            = s2 ∧
        ({ filesize_state with
              eax := 0xFFFFFFFF,
              trace := [Event.read_word 0xBFFFFF00, Event.read_word 0xBFFFFF04] } : State).eax
            = filesize_state.eax) :=
  ⟨by decide, by rfl,
    return_register_protocol sample_env filesize_state _ (by decide) (by rfl)
      Syscall.filesize 1 (by decide)⟩

/-- C8: starting with the lock free, each of create, remove, open, filesize,
read, write, seek, tell and close, on every path (returning or terminating the
process), adds events that respect the lock: the lock is acquired only while
free and released only while held, every filesystem collaborator call is made
while the lock is held, and the lock is free at the end. -/
theorem filesystem_lock_discipline (env : Env) (s : State) (hfree : s.lock_held = false) :
    (∀ file size, lock_discipline s (sys_create env file size s)) ∧
    (∀ file, lock_discipline s (sys_remove env file s)) ∧
    (∀ file, lock_discipline s (sys_open env file s)) ∧
    (∀ fd, lock_discipline s (sys_filesize env fd s)) ∧
    (∀ fd buffer size, lock_discipline s (sys_read env fd buffer size s)) ∧
    (∀ fd buffer size, lock_discipline s (sys_write env fd buffer size s)) ∧
    (∀ fd position, lock_discipline s (sys_seek fd position s)) ∧
    (∀ fd, lock_discipline s (sys_tell env fd s)) ∧
    (∀ fd, lock_discipline s (sys_close fd s)) := by
  refine ⟨?_, ?_, ?_, ?_, ?_, ?_, ?_, ?_, ?_⟩
  · intro file size
    by_cases hc : u32 file ≤ 0x8048000 ∨ u32 file ≥ 0xc0000000
    · simp [lock_discipline, new_events, sys_create, bind_apply, M.bind, check_address,
        hc, sys_exit, Outcome.state, lock_ok, Event.isFilesys, hfree]
    · simp [lock_discipline, new_events, sys_create, bind_apply, M.bind, check_address,
        hc, lock_acquire, filesys_create, lock_release, pure_apply, Outcome.state,
        lock_ok, Event.isFilesys]
  · intro file
    by_cases hc : u32 file ≤ 0x8048000 ∨ u32 file ≥ 0xc0000000
    · simp [lock_discipline, new_events, sys_remove, bind_apply, M.bind, check_address,
        hc, sys_exit, Outcome.state, lock_ok, Event.isFilesys, hfree]
    · simp [lock_discipline, new_events, sys_remove, bind_apply, M.bind, check_address,
        hc, lock_acquire, filesys_remove, lock_release, pure_apply, Outcome.state,
        lock_ok, Event.isFilesys]
  · intro file
    by_cases hc : u32 file ≤ 0x8048000 ∨ u32 file ≥ 0xc0000000
    · simp [lock_discipline, new_events, sys_open, bind_apply, M.bind, check_address,
        hc, sys_exit, Outcome.state, lock_ok, Event.isFilesys, hfree]
    · cases ho : env.filesys_open
          { s with lock_held := true, trace := s.trace ++ [Event.lock_acquire] } file <;>
        simp [lock_discipline, new_events, sys_open, bind_apply, M.bind, check_address,
          hc, lock_acquire, filesys_open, ho, process_add_file, lock_release, pure_apply,
          Outcome.state, lock_ok, Event.isFilesys]
  · intro fd
    cases hl : (fd_lookup s.fd_table fd) <;>
      simp [lock_discipline, new_events, sys_filesize, bind_apply, M.bind, process_get_file, hl,
        lock_acquire, file_length, lock_release, pure_apply, Outcome.state, lock_ok,
        Event.isFilesys, hfree]
  · intro fd buffer size
    by_cases hc : u32 buffer ≤ 0x8048000 ∨ u32 buffer ≥ 0xc0000000
    · simp [lock_discipline, new_events, sys_read, bind_apply, M.bind, check_address,
        hc, sys_exit, Outcome.state, lock_ok, Event.isFilesys, hfree]
    · by_cases h0 : fd = 0
      · simp [lock_discipline, new_events, sys_read, bind_apply, M.bind, check_address,
          hc, process_get_file, h0, sys_read_loop_run, pure_apply, Outcome.state,
          lock_ok_console, hfree]
      · cases hl : (fd_lookup s.fd_table fd) <;>
          simp [lock_discipline, new_events, sys_read, bind_apply, M.bind, check_address,
            hc, process_get_file, h0, hl, lock_acquire, file_read, lock_release,
            pure_apply, Outcome.state, lock_ok, Event.isFilesys, hfree]
  · intro fd buffer size
    by_cases hc : u32 buffer ≤ 0x8048000 ∨ u32 buffer ≥ 0xc0000000
    · simp [lock_discipline, new_events, sys_write, bind_apply, M.bind, check_address,
        hc, sys_exit, Outcome.state, lock_ok, Event.isFilesys, hfree]
    · by_cases h1 : fd = 1
      · simp [lock_discipline, new_events, sys_write, bind_apply, M.bind, check_address,
          hc, process_get_file, h1, putbuf, pure_apply, Outcome.state, lock_ok,
          Event.isFilesys, hfree]
      · cases hl : (fd_lookup s.fd_table fd) <;>
          simp [lock_discipline, new_events, sys_write, bind_apply, M.bind,
            check_address, hc, process_get_file, h1, hl, lock_acquire, file_write,
            lock_release, pure_apply, Outcome.state, lock_ok, Event.isFilesys, hfree]
  · intro fd position
    cases hl : (fd_lookup s.fd_table fd) <;>
      simp [lock_discipline, new_events, sys_seek, bind_apply, M.bind, process_get_file, hl,
        lock_acquire, file_seek, emit, lock_release, pure_apply, Outcome.state, lock_ok,
        Event.isFilesys, hfree]
  · intro fd
    cases hl : (fd_lookup s.fd_table fd) <;>
      simp [lock_discipline, new_events, sys_tell, bind_apply, M.bind, process_get_file, hl,
        lock_acquire, file_tell, lock_release, pure_apply, Outcome.state, lock_ok,
        Event.isFilesys, hfree]
  · intro fd
    cases hl : (fd_lookup s.fd_table fd) <;>
      simp [lock_discipline, new_events, sys_close, bind_apply, M.bind, lock_acquire,
        process_close_file, hl, lock_release, Outcome.state, lock_ok, Event.isFilesys]

/-- Instance of C8: a successful `open` from the entry state. -/
theorem filesystem_lock_discipline_witness :
    (entry_state 0xBFFFFF00 []).lock_held = false ∧
    lock_discipline (entry_state 0xBFFFFF00 [])
      (sys_open sample_env 0x08048100 (entry_state 0xBFFFFF00 [])) ∧
    new_events (entry_state 0xBFFFFF00 [])
        (sys_open sample_env 0x08048100 (entry_state 0xBFFFFF00 []))
      = [Event.lock_acquire, Event.filesys_open 0x08048100, Event.lock_release] :=
  ⟨rfl,
    (filesystem_lock_discipline sample_env (entry_state 0xBFFFFF00 []) rfl).2.2.1
      0x08048100,
    by rfl⟩

set_option maxHeartbeats 1000000 in
/-- C6 (evaluation at the failing input): `read (0, 0x08048100, 2)` with the
console input `A`, `B` returns 2 and consumes two input bytes, but both stores
go to `buffer[0]`: afterwards `buffer[0]` holds `B`, the second byte, and
`buffer[1]` still holds its old content 0. -/
theorem sys_read_console_overwrites :
    (syscall_handler sample_env console_read_state).returned = true ∧
    (syscall_handler sample_env console_read_state).state.eax = 2 ∧
    (syscall_handler sample_env console_read_state).state.input_pos = 2 ∧
    sample_env.input 0 % 256 = 0x41 ∧ sample_env.input 1 % 256 = 0x42 ∧
    new_events console_read_state (syscall_handler sample_env console_read_state)
      = [Event.read_word 0xBFFFFF00, Event.read_word 0xBFFFFF04,
         Event.read_word 0xBFFFFF08, Event.read_word 0xBFFFFF0C,
         Event.input_getc, Event.write_byte 0x08048100 0x41,
         Event.input_getc, Event.write_byte 0x08048100 0x42] ∧
    read_byte (syscall_handler sample_env console_read_state).state.mem 0x08048100 = 0x42 ∧
    read_byte (syscall_handler sample_env console_read_state).state.mem 0x08048101 = 0 := by
  refine ⟨by rfl, by rfl, by rfl, by rfl, by rfl, by rfl, by rfl, by rfl⟩

/-- C7 (counterexample): descriptor 5 is unknown in the entry state, yet
`close (5)` acquires and releases the filesystem lock. -/
theorem sys_close_unknown_takes_lock :
    process_get_file 5 (entry_state 0xBFFFFF00 [])
      = Outcome.ret none (entry_state 0xBFFFFF00 []) ∧
    new_events (entry_state 0xBFFFFF00 []) (sys_close 5 (entry_state 0xBFFFFF00 []))
      = [Event.lock_acquire, Event.lock_release] ∧
    ¬ (∀ e ∈ new_events (entry_state 0xBFFFFF00 [])
          (sys_close 5 (entry_state 0xBFFFFF00 [])), e.isLock = false) := by
  refine ⟨by rfl, by rfl, ?_⟩
  intro h
  have h1 := h Event.lock_acquire
    (by rw [show new_events (entry_state 0xBFFFFF00 [])
          (sys_close 5 (entry_state 0xBFFFFF00 []))
          = [Event.lock_acquire, Event.lock_release] from by rfl]
        exact List.mem_cons_self _ _)
  cases h1

/-- C7 (amended): for a descriptor `fd` whose lookup reports not-found,
`filesize` returns -1, `tell` returns the word `0xFFFFFFFF` (-1 as `unsigned`)
and `seek` returns, all three with the state unchanged (no lock operation, no
collaborator call); `close` makes no filesystem call and leaves the descriptor
table unchanged, but acquires and releases the lock once. -/
theorem unknown_descriptor_handling (env : Env) (s : State) (fd : Int) (pos : Nat)
    (hnf : process_get_file fd s = Outcome.ret none s) :
    sys_filesize env fd s = Outcome.ret (-1) s ∧
    sys_tell env fd s = Outcome.ret 0xFFFFFFFF s ∧
    toInt32 0xFFFFFFFF = -1 ∧
    sys_seek fd pos s = Outcome.ret () s ∧
    sys_close fd s
      = Outcome.ret ()
          { s with lock_held := false,
                   trace := s.trace ++ [Event.lock_acquire, Event.lock_release] } := by
  have hl : fd_lookup s.fd_table fd = none := by
    simp only [process_get_file, Outcome.ret.injEq, and_true] at hnf
    exact hnf
  refine ⟨?_, ?_, by decide, ?_, ?_⟩
  · simp only [sys_filesize, bind_apply, M.bind, process_get_file, hl, pure_apply]
  · simp only [sys_tell, bind_apply, M.bind, process_get_file, hl, pure_apply]
    rfl
  · simp only [sys_seek, bind_apply, M.bind, process_get_file, hl, pure_apply]
  · simp only [sys_close, bind_apply, M.bind, lock_acquire, process_close_file, hl,
      lock_release, List.append_assoc, List.singleton_append]

/-- Instance of C7 (amended) at descriptor 5 in the entry state. -/
theorem unknown_descriptor_handling_witness :
    process_get_file 5 (entry_state 0xBFFFFF00 [])
      = Outcome.ret none (entry_state 0xBFFFFF00 []) ∧
    sys_filesize sample_env 5 (entry_state 0xBFFFFF00 [])
      = Outcome.ret (-1) (entry_state 0xBFFFFF00 []) :=
  ⟨by rfl,
    (unknown_descriptor_handling sample_env (entry_state 0xBFFFFF00 []) 5 0 (by rfl)).1⟩

/-- C9: for a command-line pointer that passes validation, `sys_exec` calls
`process_execute`; if the child lookup for the returned id finds nothing it
returns -1 without blocking; otherwise it blocks once on the load semaphore of
the child and then returns -1 when `is_loaded` of the child is 0 (the load
failed) and the id returned by `process_execute` in every other case. -/
theorem sys_exec_result (env : Env) (cmd : Nat) (s : State)
    (h1 : 0x08048000 < cmd) (h2 : cmd < 0xC0000000) :
    (env.get_child_process { s with trace := s.trace ++ [Event.process_execute cmd] }
        (env.process_execute s cmd) = none →
      sys_exec env cmd s
        = Outcome.ret (-1) { s with trace := s.trace ++ [Event.process_execute cmd] }) ∧
    (∀ p, env.get_child_process { s with trace := s.trace ++ [Event.process_execute cmd] }
        (env.process_execute s cmd) = some p →
      (env.is_loaded
          { s with trace := s.trace ++ [Event.process_execute cmd, Event.sema_down_load p] }
          p = 0 →
        sys_exec env cmd s
          = Outcome.ret (-1)
              { s with trace := s.trace
                  ++ [Event.process_execute cmd, Event.sema_down_load p] }) ∧
      (env.is_loaded
          { s with trace := s.trace ++ [Event.process_execute cmd, Event.sema_down_load p] }
          p ≠ 0 →
        sys_exec env cmd s
          = Outcome.ret (env.process_execute s cmd)
              { s with trace := s.trace
                  ++ [Event.process_execute cmd, Event.sema_down_load p] })) := by
  have hc := check_address_ok cmd s h1 h2
  refine ⟨?_, ?_⟩
  · intro hn
    simp only [sys_exec, bind_apply, M.bind, hc, process_execute, get_child_process, hn,
      pure_apply]
  · intro p hp
    constructor
    · intro h0
      simp only [sys_exec, bind_apply, M.bind, hc, process_execute, get_child_process, hp,
        sema_down_load, emit, is_loaded, List.append_assoc, List.singleton_append]
      rw [if_pos h0]
      rfl
    · intro h0
      simp only [sys_exec, bind_apply, M.bind, hc, process_execute, get_child_process, hp,
        sema_down_load, emit, is_loaded, List.append_assoc, List.singleton_append]
      rw [if_neg h0]
      rfl

/-- Instance of C9: the sample collaborators spawn child 3, which loads. -/
theorem sys_exec_result_witness :
    (0x08048000 : Nat) < 0x08048100 ∧ (0x08048100 : Nat) < 0xC0000000 ∧
    sys_exec sample_env 0x08048100 (entry_state 0xBFFFFF00 [])
      = Outcome.ret 3
          { entry_state 0xBFFFFF00 [] with
              trace := (entry_state 0xBFFFFF00 []).trace
                ++ [Event.process_execute 0x08048100, Event.sema_down_load 3] } :=
  ⟨by decide, by decide,
    ((sys_exec_result sample_env 0x08048100 (entry_state 0xBFFFFF00 [])
      (by decide) (by decide)).2 3 rfl).2 (by decide)⟩

/-- C10: for a `write` call (syscall number 9) whose stack slots pass
validation, whose descriptor is 1 and whose buffer address passes validation,
with `n` the length word: the handler returns with `eax = n`, and the events
it adds after the four loads from the stack are exactly one `putbuf` of the
`n` bytes `buffer[0..n)`: no lock operation, no filesystem call; nothing else
in the state changes. -/
theorem console_write_contract (env : Env) (s : State)
    (h1 : 0x08048000 < s.esp) (h2 : s.esp < 0xC0000000)
    (hk : read_word s.mem s.esp = 9)
    (hv : ∀ i, i < 3 → 0x08048000 < s.esp + 4 + 4 * i ∧ s.esp + 4 + 4 * i < 0xC0000000)
    (hfd : read_word s.mem (s.esp + 4) = 1)
    (hb1 : 0x08048000 < read_word s.mem (s.esp + 8))
    (hb2 : read_word s.mem (s.esp + 8) < 0xC0000000) :
    syscall_handler env s
      = Outcome.ret ()
          { s with eax := read_word s.mem (s.esp + 12),
                   trace := s.trace ++ word_reads s.esp 4
                     ++ [Event.putbuf (read_bytes s.mem (read_word s.mem (s.esp + 8))
                          (read_word s.mem (s.esp + 12)))] } ∧
    (∀ e ∈ new_events s (syscall_handler env s), e.isLock = false ∧ e.isFilesys = false) ∧
    (new_events s (syscall_handler env s)).countP Event.isConsole = 1 := by
  obtain ⟨arg, harg, hrun⟩ :=
    handler_marshaled env s h1 h2 Syscall.write 3 (by rw [hk]; rfl) hv
  have a0 : arg.getD 0 0 = 1 := by
    have := harg 0 (by omega)
    simp only [Nat.mul_zero, Nat.add_zero, hfd] at this
    rw [this]; decide
  have a1 : toU32 (arg.getD 1 0) = read_word s.mem (s.esp + 8) := by
    have := harg 1 (by omega)
    rw [this]
    exact toU32_toInt32 _ (read_word_lt _ _)
  have a2 : toU32 (arg.getD 2 0) = read_word s.mem (s.esp + 12) := by
    have := harg 2 (by omega)
    rw [this]
    exact toU32_toInt32 _ (read_word_lt _ _)
  have hres : syscall_handler env s
      = Outcome.ret ()
          { s with eax := read_word s.mem (s.esp + 12),
                   trace := s.trace ++ word_reads s.esp 4
                     ++ [Event.putbuf (read_bytes s.mem (read_word s.mem (s.esp + 8))
                          (read_word s.mem (s.esp + 12)))] } := by
    rw [hrun]
    simp only [invoke_spec, bind_apply, M.bind, a0, a1, a2,
      check_address_ok _ _ hb1 hb2, sys_write_console env _ _ _ hb1 hb2,
      toU32_toInt32 _ (read_word_lt _ _), set_eax_word _ (read_word_lt _ _)]
  refine ⟨hres, ?_, ?_⟩
  · rw [hres]
    intro e he
    simp only [new_events, Outcome.state, List.append_assoc, List.drop_left, word_reads,
      List.mem_append, List.mem_map, List.mem_singleton] at he
    rcases he with ⟨i, _, rfl⟩ | rfl <;> exact ⟨rfl, rfl⟩
  · rw [hres]
    simp only [new_events, Outcome.state, List.append_assoc, List.drop_left, word_reads,
      List.countP_append, List.countP_map]
    simp [Function.comp_def, Event.isConsole, List.countP_eq_zero]

/-- Instance of C10: `write (1, buffer, 3)` with `buffer` holding `a`, `b`, `c`. -/
theorem console_write_contract_witness :
    0x08048000 < console_write_state.esp ∧ console_write_state.esp < 0xC0000000 ∧
    read_word console_write_state.mem console_write_state.esp = 9 ∧
    read_word console_write_state.mem (console_write_state.esp + 4) = 1 ∧
    read_word console_write_state.mem (console_write_state.esp + 8) = 0x08048100 ∧
    read_word console_write_state.mem (console_write_state.esp + 12) = 3 ∧
    read_bytes console_write_state.mem 0x08048100 3 = [0x61, 0x62, 0x63] ∧
    syscall_handler sample_env console_write_state
      = Outcome.ret ()
          { console_write_state with
              eax := read_word console_write_state.mem (console_write_state.esp + 12),
              trace := console_write_state.trace ++ word_reads console_write_state.esp 4
                ++ [Event.putbuf
                      (read_bytes console_write_state.mem
                        (read_word console_write_state.mem (console_write_state.esp + 8))
                        (read_word console_write_state.mem
                          (console_write_state.esp + 12)))] } :=
  ⟨by decide, by decide, by decide, by decide, by decide, by decide, by decide,
    (console_write_contract sample_env console_write_state (by decide) (by decide) (by decide)
      (by intro i hi; interval_cases i <;> decide) (by decide) (by decide) (by decide)).1⟩

end Pintos
